import Mathlib

/-!
Verification development for the ch-backup core: the backup/restore
orchestrator (`ch_backup/backup.py`), the execution pool
(`ch_backup/storage/async_pipeline/base_pipeline/exec_pool.py`) and the S3
storage engine (`ch_backup/storage/engine/s3.py`), shallowly embedded in
Lean 4.

The metadata/layout module (`ch_backup/clickhouse/layout.py`, which holds
`ClickhouseBackupStructure` and `ClickhousePartInfo`) is not part of the
sources; the definitions that depend on it are modelled from the spec and
say so in their doc comments.
-/

namespace ChBackup

/-- Modelled from the spec: the per-part payload stored inside a backup
document by `ClickhouseBackupStructure.add_part_contents`
(ch_backup/clickhouse/layout.py is absent from the sources).  Spec section 3
(PartMetadata): checksum, size, ordered file list, optional dedup `link`
(the path of a prior backup), and the remote storage paths of the part. -/
structure PartEntry where
  checksum : String
  size : Nat
  files : List String
  link : Option String
  paths : List String
  deriving DecidableEq

/-- Modelled from the spec: an observed data part
(`ClickhousePartInfo` built from a `system.parts` row in
`ClickhouseBackup.backup_database`; ch_backup/clickhouse/layout.py is absent
from the sources).  Spec section 3: database/table/name identify the part;
checksum/size/files describe its content; rows/bytes are the counters fed
into the backup totals. -/
structure PartInfo where
  database : String
  table : String
  name : String
  checksum : String
  size : Nat
  files : List String
  rows : Nat
  bytes : Nat
  deriving DecidableEq

/-- Modelled from the spec: `ClickhouseBackupStructure`
(ch_backup/clickhouse/layout.py is absent from the sources).  Spec section 3
(BackupMetadata): name, storage-relative path, nullable start/end times,
database list, per-part entries keyed by database/table/part name, and the
aggregate rows/bytes counters. -/
structure BackupStructure where
  name : String
  path : String
  start_time : Option Nat := none
  end_time : Option Nat := none
  databases : List String := []
  parts : List (String × String × String × PartEntry) := []
  rows : Nat := 0
  bytes : Nat := 0
  deriving DecidableEq

/-- Modelled from the spec: `ClickhouseBackupStructure.get_part_contents` —
look up the recorded entry for one database/table/part name
(ch_backup/clickhouse/layout.py is absent from the sources). -/
def getPartContents (b : BackupStructure) (db table part : String) :
    Option PartEntry :=
  (b.parts.find? fun e => e.1 == db && e.2.1 == table && e.2.2.1 == part).map
    (fun e => e.2.2.2)

/-- `backup_layout.path_exists`: the storage backend is modelled as the list
of remote paths that currently exist. -/
def pathExistsIn (storage : List String) (p : String) : Bool :=
  storage.contains p

/-- `ClickhouseBackup._check_part_availability`: collect the part files that
are missing from storage and succeed only when that list is empty. -/
def checkPartAvailability (storage : List String) (e : PartEntry) : Bool :=
  (e.paths.filter fun p => !pathExistsIn storage p).isEmpty

/-- Modelled from the spec: equality of an observed part and a recorded
entry, as used by `backup_part_info != part_info` in
`ClickhouseBackup._deduplicate_part` (`ClickhousePartInfo.__eq__` lives in
the absent ch_backup/clickhouse/layout.py).  Spec section 4.2: checksum,
size and files must all match. -/
def partInfoMatches (p : PartInfo) (e : PartEntry) : Bool :=
  p.checksum == e.checksum && p.size == e.size && p.files == e.files

/-- `ClickhouseBackup._deduplicate_part`: walk the candidate backups in the
given order; skip a candidate whose entry is absent, is itself a link, or
differs from the observed part; accept the first candidate whose entry also
has all its files present in storage, returning the candidate's path and
the entry's remote paths.  `(False, None)` in the source is `none` here. -/
def deduplicatePart (existing : List BackupStructure) (storage : List String)
    (p : PartInfo) : Option (String × List String) :=
  match existing with
  | [] => none
  | b :: rest =>
    match getPartContents b p.database p.table p.name with
    | none => deduplicatePart rest storage p
    | some e =>
      if e.link.isSome then deduplicatePart rest storage p
      else if !partInfoMatches p e then deduplicatePart rest storage p
      else if checkPartAvailability storage e then some (b.path, e.paths)
      else deduplicatePart rest storage p

/-- The acceptance test applied to one candidate backup by
`_deduplicate_part`: its entry for the observed part exists, is not a link,
matches the observed part and has all files available in storage. -/
def dedupAccepts (storage : List String) (p : PartInfo)
    (b : BackupStructure) : Bool :=
  match getPartContents b p.database p.table p.name with
  | none => false
  | some e =>
    !e.link.isSome && partInfoMatches p e && checkPartAvailability storage e

/-! ### The per-part loop of `ClickhouseBackup.backup_database` -/

/-- Modelled from the spec: `backup_layout.save_part_data` uploads the
part's files and returns the remote paths they were stored under
(ch_backup/layout.py is absent from the sources).  Spec sections 4.1/4.4:
on a dedup miss the part bytes are transferred to the backend under the
current backup's root. -/
def savePartData (backupPath db table part : String) : List String :=
  [backupPath ++ "/" ++ db ++ "/" ++ table ++ "/" ++ part]

/-- Modelled from the spec:
`ClickhouseBackupStructure.add_part_contents` — append the entry for one
part, carrying the observed part's contents, the remote paths and the
optional dedup link (ch_backup/clickhouse/layout.py is absent from the
sources). -/
def addPartContents (m : BackupStructure) (db table part : String)
    (remotePaths : List String) (p : PartInfo) (link : Option String) :
    BackupStructure :=
  { m with parts :=
      m.parts ++ [(db, table, part,
        ⟨p.checksum, p.size, p.files, link, remotePaths⟩)] }

/-- The body of the part loop in `ClickhouseBackup.backup_database`
(lines 140-168): add the part's rows/bytes to the run totals, try
deduplication, transfer on a miss, and record the entry with or without a
link. -/
def processPart (existing : List BackupStructure) (storage : List String)
    (db table : String) (m : BackupStructure) (p : PartInfo) :
    BackupStructure :=
  let m := { m with rows := m.rows + p.rows, bytes := m.bytes + p.bytes }
  match deduplicatePart existing storage p with
  | some (link, remotePaths) =>
      addPartContents m db table p.name remotePaths p (some link)
  | none =>
      addPartContents m db table p.name (savePartData m.path db table p.name)
        p none

/-- The part loop of `ClickhouseBackup.backup_database` for one table. -/
def backupTableParts (existing : List BackupStructure)
    (storage : List String) (db table : String) (m : BackupStructure)
    (parts : List PartInfo) : BackupStructure :=
  parts.foldl (processPart existing storage db table) m

/-- `ClickhouseBackup.backup_database`: register the database and run the
part loop for every table (tables are given with their observed parts). -/
def backupDatabase (existing : List BackupStructure) (storage : List String)
    (db : String) (m : BackupStructure)
    (tables : List (String × List PartInfo)) : BackupStructure :=
  let m := { m with databases := m.databases ++ [db] }
  tables.foldl (fun acc t => backupTableParts existing storage db t.1 acc t.2) m

/-! ### Soundness of recorded dedup links -/

/-- A recorded entry's link, when set, names a candidate backup whose own
entry for the observed part exists, is not itself a link, matches the
observed part, and has all its files available in storage; the recorded
remote paths are that entry's paths. -/
def linkedEntrySound (existing : List BackupStructure) (storage : List String)
    (p : PartInfo) (e : PartEntry) : Prop :=
  ∀ l, e.link = some l → ∃ b ∈ existing, b.path = l ∧
    ∃ c, getPartContents b p.database p.table p.name = some c ∧
      c.link = none ∧ partInfoMatches p c = true ∧
      checkPartAvailability storage c = true ∧ e.paths = c.paths

/-! ### The backup run, `list` and dedup candidate loading -/

/-- The exception type raised by the orchestrator
(`ch_backup/exceptions.py` ClickHouseBackupError). -/
inductive ChError
  | clickhouseBackupError
  deriving DecidableEq

/-- The remote meta-document store: backup name to persisted backup
metadata document, in creation order. -/
abbrev StorageState := List (String × BackupStructure)

/-- Modelled from the spec: `backup_layout.get_existing_backups_names`
returns the names of the backups whose metadata document is stored in the
backend (ch_backup/layout.py is absent from the sources; spec section 6:
the persisted document is stored under a path derived from the backup
name). -/
def getExistingBackupsNames (st : StorageState) : List String :=
  st.map (fun d => d.1)

/-- `ClickhouseBackup.list`: return the existing backup names. -/
def listBackups (st : StorageState) : List String :=
  getExistingBackupsNames st

/-- Modelled from the spec: `backup_layout.save_backup_meta` persists the
serialized metadata document under the backup's name
(ch_backup/layout.py is absent from the sources). -/
def saveBackupMeta (st : StorageState) (m : BackupStructure) : StorageState :=
  st ++ [(m.name, m)]

/-- `ClickhouseBackup._load_backup_meta` over the modelled store: fetch the
document persisted under a name, if any. -/
def loadBackupMeta (st : StorageState) (nm : String) :
    Option BackupStructure :=
  (st.find? fun d => d.1 == nm).map (fun d => d.2)

/-- Insert into a list already sorted by descending end time (used to model
the stable sort in `_load_existing_backups`). -/
def insertByEndTimeDesc (m : BackupStructure) :
    List BackupStructure → List BackupStructure
  | [] => [m]
  | b :: rest =>
    if (b.end_time.getD 0) < (m.end_time.getD 0) then m :: b :: rest
    else b :: insertByEndTimeDesc m rest

/-- Sort backups by end time, newest first (`existing_backups.sort(...,
reverse=True)` in `_load_existing_backups`). -/
def sortByEndTimeDesc (l : List BackupStructure) : List BackupStructure :=
  l.foldr insertByEndTimeDesc []

/-- `ClickhouseBackup._load_existing_backups`: walk the existing backup
names, skip names without a persisted metadata document, keep documents
whose end time is newer than the age limit, and sort newest-first.  A
document without an end time cannot occur here because only finalized
documents are persisted; the comparison branch mirrors that fact by
rejecting it. -/
def loadExistingBackups (st : StorageState) (ageLimit : Nat) :
    List BackupStructure :=
  let metas := (getExistingBackupsNames st).filterMap (loadBackupMeta st)
  let recent := metas.filter fun m =>
    match m.end_time with
    | some t => decide (ageLimit < t)
    | none => false
  sortByEndTimeDesc recent

/-- `ClickhouseBackupStructure.mark_start` (modelled from the spec:
ch_backup/clickhouse/layout.py is absent from the sources). -/
def markStart (m : BackupStructure) (t : Nat) : BackupStructure :=
  { m with start_time := some t }

/-- `ClickhouseBackupStructure.mark_end` (modelled from the spec:
ch_backup/clickhouse/layout.py is absent from the sources). -/
def markEnd (m : BackupStructure) (t : Nat) : BackupStructure :=
  { m with end_time := some t }

/-- One database of a backup run: its name, whether every freeze during its
processing succeeded (`freeze_table` raising is the fatal error path of
`backup_database`), and its tables with their observed parts. -/
structure DbWork where
  db : String
  freezeOk : Bool
  tables : List (String × List PartInfo)

/-- The database loop of `ClickhouseBackup.backup`: process databases in
order; a freeze failure raises `ClickHouseBackupError`, abandoning the
in-memory metadata (returned in the error so its state can be observed). -/
def processDatabases (existing : List BackupStructure)
    (storage : List String) (m : BackupStructure) :
    List DbWork → Except BackupStructure BackupStructure
  | [] => .ok m
  | w :: rest =>
    if w.freezeOk then
      processDatabases existing storage
        (backupDatabase existing storage w.db m w.tables) rest
    else .error m

/-- The observable outcome of `ClickhouseBackup.backup`: the returned name
or raised error, the in-memory metadata object at exit, and the
meta-document store afterwards. -/
structure RunResult where
  result : Except ChError String
  meta : BackupStructure
  storage : StorageState

/-- `ClickhouseBackup.backup`: create the metadata, mark the start time,
process every database, and only then mark the end time and persist the
document.  A failed run persists nothing. -/
def backupRun (existing : List BackupStructure) (storage : List String)
    (st : StorageState) (nm pth : String) (dbs : List DbWork)
    (startT endT : Nat) : RunResult :=
  let m0 : BackupStructure := { name := nm, path := pth }
  let m1 := markStart m0 startT
  match processDatabases existing storage m1 dbs with
  | .ok m2 =>
    let m3 := markEnd m2 endT
    { result := .ok nm, meta := m3, storage := saveBackupMeta st m3 }
  | .error mPartial =>
    { result := .error ChError.clickhouseBackupError, meta := mPartial,
      storage := st }

/-- `ClickhouseBackup.restore` (lines 79-101): with an explicit database
list the source builds `missed_databases` as a generator expression and
then branches on `if missed_databases:` — a truth test on the generator
object itself, which is truthy even when the generator would yield nothing,
so the error branch is taken for every explicit list. -/
def restore (m : BackupStructure) (databases : Option (List String)) :
    Except (ChError × List String) (List String) :=
  match databases with
  | none => .ok m.databases
  | some dbs =>
    let missedDatabases := dbs.filter fun d => !m.databases.contains d
    let generatorObjectTruthy : Bool := true
    if generatorObjectTruthy then
      .error (ChError.clickhouseBackupError, missedDatabases)
    else .ok dbs

/-! ### Schema text rewriting
(`ClickhouseBackup._backup_database_meta` / `_backup_table_meta`) -/

/-- Does the pattern occur at the start of the text? -/
def textStartsWith : List Char → List Char → Bool
  | [], _ => true
  | _ :: _, [] => false
  | p :: ps, c :: cs => p == c && textStartsWith ps cs

/-- Python's `str.replace(old, new, 1)`: replace the first (leftmost)
occurrence of the pattern, leaving everything else untouched. -/
def replaceFirst (pat repl : List Char) : List Char → List Char
  | [] => if textStartsWith pat [] then repl else []
  | c :: rest =>
    if textStartsWith pat (c :: rest) then repl ++ (c :: rest).drop pat.length
    else c :: replaceFirst pat repl rest

/-- The rewriting step of `ClickhouseBackup._backup_database_meta`
(line 188): `file_contents.replace('ATTACH ', 'CREATE ', 1)`.  No database
name is injected. -/
def backupDatabaseMetaText (fileContents : List Char) : List Char :=
  replaceFirst "ATTACH ".data "CREATE ".data fileContents

/-- The rewriting step of `ClickhouseBackup._backup_table_meta`
(lines 204-207): `file_contents.replace('ATTACH TABLE ',
'CREATE TABLE {db_name}.', 1)`. -/
def backupTableMetaText (dbName : String) (fileContents : List Char) :
    List Char :=
  replaceFirst "ATTACH TABLE ".data
    ("CREATE TABLE ".data ++ dbName.data ++ ['.']) fileContents

/-- Does the pattern occur anywhere in the text? -/
def containsSub (pat : List Char) : List Char → Bool
  | [] => textStartsWith pat []
  | c :: rest => textStartsWith pat (c :: rest) || containsSub pat rest

/-! ### `S3StorageEngine.download_part` -/

/-- `DEFAULT_DOWNLOAD_PART_LEN` from ch_backup/storage/engine/s3.py. -/
def DEFAULT_DOWNLOAD_PART_LEN : Nat := 8 * 1024 * 1024

/-- Python truthiness of an optional integer argument: `None` and `0` are
falsy, every other number is truthy. -/
def pyTruthy : Option Nat → Bool
  | none => false
  | some n => n != 0

/-- `StreamingBody.read`: `read(None)` returns the whole remaining body,
`read(n)` returns at most `n` bytes. -/
def readBody (body : List Nat) : Option Nat → List Nat
  | none => body
  | some n => body.take n

/-- `S3StorageEngine.download_part` (lines 173-176): the source runs
`if part_len: part_len = DEFAULT_DOWNLOAD_PART_LEN` and then
`...read(part_len)` — a truthy `part_len` is replaced by the default, a
falsy one (`None` or `0`) is passed through to `read`. -/
def download_part (body : List Nat) (part_len : Option Nat) : List Nat :=
  let part_len :=
    if pyTruthy part_len then some DEFAULT_DOWNLOAD_PART_LEN else part_len
  readBody body part_len

/-! ### The execution pool (exec_pool.py) -/

/-- `Job` from exec_pool.py: an id and an optional completion callback
(callbacks are identified by a tag; running one is recorded). -/
structure PoolJob where
  id_ : String
  callback : Option String
  deriving DecidableEq

/-- The error raised by `ExecPool.submit` on a duplicate job id
(`RuntimeError("Duplicate")`). -/
inductive PoolError
  | duplicate
  deriving DecidableEq

/-- `ExecPool._future_to_job`: the registry mapping future handles to
jobs, in submission order. -/
abbrev Registry := List (Nat × PoolJob)

/-- The job ids currently registered
(`[job.id_ for job in self._future_to_job.values()]`). -/
def registeredIds (r : Registry) : List String :=
  r.map (fun fj => fj.2.id_)

/-- `ExecPool.submit`: reject a job id already present among the
outstanding jobs, otherwise register the new future/job pair. -/
def submit (r : Registry) (jobId : String) (fut : Nat)
    (cb : Option String) : Except PoolError Registry :=
  if (registeredIds r).contains jobId then .error PoolError.duplicate
  else .ok (r ++ [(fut, PoolJob.mk jobId cb)])

/-- The completion outcome of one job: a result value or a raised
exception. -/
inductive Outcome (α : Type)
  | ok (a : α)
  | err
  deriving DecidableEq

/-- Everything observable about one `ExecPool.as_completed` collection
pass over the completed futures. -/
structure CollectResult (α : Type) where
  yielded : List α
  callbacksRun : List String
  warnLogs : List String
  errorLogs : List String
  raised : Bool
  unprocessed : List (PoolJob × Outcome α)
  registryCleared : Bool
  deriving DecidableEq

/-- `ExecPool.as_completed` over `_as_completed` (exec_pool.py lines
69-103), applied to the completed futures in completion order: a success
is yielded after running its callback; a failure with `keep_going` is
logged as a warning and skipped; a failure without `keep_going` is logged
as an error and re-raised, which ends the generator — the remaining
completions are never examined and `self._future_to_job = {}` is never
reached. -/
def asCompleted {α : Type} (keepGoing : Bool) :
    List (PoolJob × Outcome α) → CollectResult α
  | [] =>
    { yielded := [], callbacksRun := [], warnLogs := [], errorLogs := [],
      raised := false, unprocessed := [], registryCleared := true }
  | (j, Outcome.ok a) :: rest =>
    let r := asCompleted keepGoing rest
    { r with
      yielded := a :: r.yielded,
      callbacksRun :=
        match j.callback with
        | some c => c :: r.callbacksRun
        | none => r.callbacksRun }
  | (j, Outcome.err) :: rest =>
    if keepGoing then
      let r := asCompleted keepGoing rest
      { r with warnLogs := j.id_ :: r.warnLogs }
    else
      { yielded := [], callbacksRun := [], warnLogs := [],
        errorLogs := [j.id_], raised := true, unprocessed := rest,
        registryCleared := false }

/-- The successful results among a batch of completions. -/
def okResults {α : Type} (completed : List (PoolJob × Outcome α)) :
    List α :=
  completed.filterMap fun jo =>
    match jo.2 with
    | Outcome.ok a => some a
    | Outcome.err => none

/-- The ids of the failed jobs among a batch of completions. -/
def errIds {α : Type} (completed : List (PoolJob × Outcome α)) :
    List String :=
  completed.filterMap fun jo =>
    match jo.2 with
    | Outcome.ok _ => none
    | Outcome.err => some jo.1.id_

/-- The callbacks of the successfully completed jobs, in completion
order. -/
def okCallbacks {α : Type} (completed : List (PoolJob × Outcome α)) :
    List String :=
  completed.filterMap fun jo =>
    match jo.2 with
    | Outcome.ok _ => jo.1.callback
    | Outcome.err => none

/-! ### Concrete fixtures used to evaluate the definitions -/

/-- A concrete observed part. -/
def samplePart : PartInfo :=
  { database := "db1", table := "t1", name := "p1", checksum := "abc",
    size := 100, files := ["a.bin", "b.bin"], rows := 10, bytes := 100 }

/-- The entry a prior backup holds for `samplePart`. -/
def sampleGoodEntry : PartEntry :=
  { checksum := "abc", size := 100, files := ["a.bin", "b.bin"],
    link := none, paths := ["ch_backup/b1/db1/t1/p1"] }

/-- A prior backup owning the sample part. -/
def sampleGoodCandidate : BackupStructure :=
  { name := "b1", path := "ch_backup/b1", end_time := some 100,
    databases := ["db1"], parts := [("db1", "t1", "p1", sampleGoodEntry)] }

/-- A newer backup whose entry for the sample part is itself a link. -/
def sampleLinkCandidate : BackupStructure :=
  { name := "b2", path := "ch_backup/b2", end_time := some 200,
    databases := ["db1"],
    parts := [("db1", "t1", "p1",
      { checksum := "abc", size := 100, files := ["a.bin", "b.bin"],
        link := some "ch_backup/b1", paths := ["ch_backup/b1/db1/t1/p1"] })] }

/-- The remote paths currently present in the storage backend. -/
def sampleStorage : List String := ["ch_backup/b1/db1/t1/p1"]

/-- A persisted meta-document store holding one finished backup. -/
def sampleStore : StorageState := [("b1", sampleGoodCandidate)]

/-- A backup metadata document recording exactly database `db1`. -/
def sampleRestoreMeta : BackupStructure :=
  { name := "b1", path := "ch_backup/b1", end_time := some 100,
    databases := ["db1"] }

/-- A run whose second database hits a freeze failure. -/
def sampleFailingRun : List DbWork :=
  [DbWork.mk "db1" true [], DbWork.mk "db2" false []]

/-- A freshly created, still empty backup metadata object. -/
def sampleEmptyMeta : BackupStructure :=
  { name := "b3", path := "ch_backup/b3" }

/-- The entry recorded for `samplePart` when it deduplicates against
`sampleGoodCandidate`. -/
def sampleLinkedEntry : PartEntry :=
  { checksum := "abc", size := 100, files := ["a.bin", "b.bin"],
    link := some "ch_backup/b1", paths := ["ch_backup/b1/db1/t1/p1"] }

/-- The keyed form of `sampleLinkedEntry` as it appears in the backup
document. -/
def sampleRecordedEntry : String × String × String × PartEntry :=
  ("db1", "t1", "p1", sampleLinkedEntry)

/-- A completed batch: `j1` succeeded, then `j2` and `j3` failed. -/
def sampleBatch : List (PoolJob × Outcome Nat) :=
  [(PoolJob.mk "j1" none, Outcome.ok 1),
   (PoolJob.mk "j2" none, Outcome.err),
   (PoolJob.mk "j3" none, Outcome.err)]

/-- A completed batch with a callback on the one success. -/
def sampleBatch2 : List (PoolJob × Outcome Nat) :=
  [(PoolJob.mk "j1" (some "cb1"), Outcome.ok 5),
   (PoolJob.mk "j2" none, Outcome.err),
   (PoolJob.mk "j3" none, Outcome.err)]

/-! ### Helper lemmas -/

lemma deduplicatePart_cons_reject {storage : List String} {p : PartInfo}
    {b : BackupStructure} (rest : List BackupStructure)
    (h : dedupAccepts storage p b = false) :
    deduplicatePart (b :: rest) storage p = deduplicatePart rest storage p := by
  unfold dedupAccepts at h
  conv_lhs => rw [deduplicatePart]
  cases hc : getPartContents b p.database p.table p.name with
  | none => simp
  | some e =>
    rw [hc] at h
    by_cases hl : e.link.isSome
    · simp [hl]
    · by_cases hm : partInfoMatches p e
      · simp [hl, hm] at h
        simp [hl, hm, h]
      · simp [hl, hm]

lemma deduplicatePart_cons_accept {storage : List String} {p : PartInfo}
    {b : BackupStructure} (rest : List BackupStructure)
    (h : dedupAccepts storage p b = true) :
    ∃ e, getPartContents b p.database p.table p.name = some e ∧
      e.link = none ∧ partInfoMatches p e = true ∧
      checkPartAvailability storage e = true ∧
      deduplicatePart (b :: rest) storage p = some (b.path, e.paths) := by
  unfold dedupAccepts at h
  cases hc : getPartContents b p.database p.table p.name with
  | none => rw [hc] at h; exact absurd h (by simp)
  | some e =>
    rw [hc] at h
    simp only [Bool.and_eq_true, Bool.not_eq_true'] at h
    obtain ⟨⟨hl, hm⟩, ha⟩ := h
    refine ⟨e, rfl, ?_, hm, ha, ?_⟩
    · exact Option.not_isSome_iff_eq_none.mp (by simp [hl])
    · unfold deduplicatePart
      simp [hc, hl, hm, ha]

lemma deduplicatePart_eq_none_iff (existing : List BackupStructure)
    (storage : List String) (p : PartInfo) :
    deduplicatePart existing storage p = none ↔
      ∀ b ∈ existing, dedupAccepts storage p b = false := by
  induction existing with
  | nil => simp [deduplicatePart]
  | cons b rest ih =>
    constructor
    · intro h c hc
      rcases List.mem_cons.mp hc with hcb | hcr
      · subst hcb
        by_contra hacc
        have hacc' : dedupAccepts storage p c = true := by
          cases h' : dedupAccepts storage p c
          · exact absurd h' hacc
          · rfl
        obtain ⟨e, -, -, -, -, hres⟩ :=
          deduplicatePart_cons_accept rest hacc'
        rw [hres] at h
        exact Option.noConfusion h
      · by_cases hb : dedupAccepts storage p b = true
        · obtain ⟨e, -, -, -, -, hres⟩ :=
            deduplicatePart_cons_accept rest hb
          rw [hres] at h
          exact Option.noConfusion h
        · have hb' : dedupAccepts storage p b = false := by
            cases h' : dedupAccepts storage p b
            · rfl
            · exact absurd h' hb
          rw [deduplicatePart_cons_reject rest hb'] at h
          exact ih.mp h c hcr
    · intro h
      have hb : dedupAccepts storage p b = false := h b (List.mem_cons_self b rest)
      rw [deduplicatePart_cons_reject rest hb]
      exact ih.mpr fun c hc => h c (List.mem_cons_of_mem b hc)

lemma deduplicatePart_first_accept (storage : List String) (p : PartInfo)
    (pre : List BackupStructure) (b : BackupStructure)
    (post : List BackupStructure)
    (hpre : ∀ c ∈ pre, dedupAccepts storage p c = false)
    (hb : dedupAccepts storage p b = true) :
    ∃ e, getPartContents b p.database p.table p.name = some e ∧
      e.link = none ∧ partInfoMatches p e = true ∧
      checkPartAvailability storage e = true ∧
      deduplicatePart (pre ++ b :: post) storage p = some (b.path, e.paths) := by
  induction pre with
  | nil =>
    simpa using deduplicatePart_cons_accept post hb
  | cons c cs ih =>
    have hc : dedupAccepts storage p c = false := hpre c (List.mem_cons_self c cs)
    obtain ⟨e, h1, h2, h3, h4, h5⟩ :=
      ih fun d hd => hpre d (List.mem_cons_of_mem c hd)
    refine ⟨e, h1, h2, h3, h4, ?_⟩
    rw [List.cons_append, deduplicatePart_cons_reject (cs ++ b :: post) hc]
    exact h5

lemma deduplicatePart_eq_some (existing : List BackupStructure)
    (storage : List String) (p : PartInfo) (pth : String)
    (pths : List String)
    (h : deduplicatePart existing storage p = some (pth, pths)) :
    ∃ b ∈ existing, b.path = pth ∧
      ∃ e, getPartContents b p.database p.table p.name = some e ∧
        e.link = none ∧ partInfoMatches p e = true ∧
        checkPartAvailability storage e = true ∧ e.paths = pths := by
  induction existing with
  | nil => simp [deduplicatePart] at h
  | cons b rest ih =>
    by_cases hb : dedupAccepts storage p b = true
    · obtain ⟨e, h1, h2, h3, h4, h5⟩ := deduplicatePart_cons_accept rest hb
      rw [h5] at h
      obtain ⟨hp, hpaths⟩ : b.path = pth ∧ e.paths = pths := by
        have := Option.some.inj h
        exact ⟨congrArg Prod.fst this, congrArg Prod.snd this⟩
      exact ⟨b, List.mem_cons_self b rest, hp, e, h1, h2, h3, h4, hpaths⟩
    · have hb' : dedupAccepts storage p b = false := by
        cases h' : dedupAccepts storage p b
        · rfl
        · exact absurd h' hb
      rw [deduplicatePart_cons_reject rest hb'] at h
      obtain ⟨c, hc, rest'⟩ := ih h
      exact ⟨c, List.mem_cons_of_mem b hc, rest'⟩

lemma processPart_rows (existing : List BackupStructure)
    (storage : List String) (db table : String) (m : BackupStructure)
    (p : PartInfo) :
    (processPart existing storage db table m p).rows = m.rows + p.rows := by
  unfold processPart
  cases deduplicatePart existing storage p with
  | none => rfl
  | some lp => cases lp; rfl

lemma processPart_bytes (existing : List BackupStructure)
    (storage : List String) (db table : String) (m : BackupStructure)
    (p : PartInfo) :
    (processPart existing storage db table m p).bytes = m.bytes + p.bytes := by
  unfold processPart
  cases deduplicatePart existing storage p with
  | none => rfl
  | some lp => cases lp; rfl

lemma backupTableParts_rows (existing : List BackupStructure)
    (storage : List String) (db table : String) (parts : List PartInfo) :
    ∀ m : BackupStructure,
      (backupTableParts existing storage db table m parts).rows =
        m.rows + (parts.map PartInfo.rows).sum := by
  induction parts with
  | nil => intro m; simp [backupTableParts]
  | cons p ps ih =>
    intro m
    have h0 :
        backupTableParts existing storage db table m (p :: ps) =
          backupTableParts existing storage db table
            (processPart existing storage db table m p) ps := rfl
    rw [h0, ih, processPart_rows]
    simp [Nat.add_assoc]

lemma backupTableParts_bytes (existing : List BackupStructure)
    (storage : List String) (db table : String) (parts : List PartInfo) :
    ∀ m : BackupStructure,
      (backupTableParts existing storage db table m parts).bytes =
        m.bytes + (parts.map PartInfo.bytes).sum := by
  induction parts with
  | nil => intro m; simp [backupTableParts]
  | cons p ps ih =>
    intro m
    have h0 :
        backupTableParts existing storage db table m (p :: ps) =
          backupTableParts existing storage db table
            (processPart existing storage db table m p) ps := rfl
    rw [h0, ih, processPart_bytes]
    simp [Nat.add_assoc]

lemma backupDatabase_rows (existing : List BackupStructure)
    (storage : List String) (db : String)
    (tables : List (String × List PartInfo)) :
    ∀ m : BackupStructure,
      (backupDatabase existing storage db m tables).rows =
        m.rows + (tables.map fun t => ((t.2.map PartInfo.rows).sum)).sum := by
  have main :
      ∀ (ts : List (String × List PartInfo)) (m : BackupStructure),
        (ts.foldl
          (fun acc t => backupTableParts existing storage db t.1 acc t.2)
          m).rows =
          m.rows + (ts.map fun t => ((t.2.map PartInfo.rows).sum)).sum := by
    intro ts
    induction ts with
    | nil => intro m; simp
    | cons t ts ih =>
      intro m
      simp only [List.foldl_cons, ih, backupTableParts_rows, List.map_cons,
        List.sum_cons, Nat.add_assoc]
  intro m
  unfold backupDatabase
  simpa using main tables { m with databases := m.databases ++ [db] }

lemma backupDatabase_bytes (existing : List BackupStructure)
    (storage : List String) (db : String)
    (tables : List (String × List PartInfo)) :
    ∀ m : BackupStructure,
      (backupDatabase existing storage db m tables).bytes =
        m.bytes + (tables.map fun t => ((t.2.map PartInfo.bytes).sum)).sum := by
  have main :
      ∀ (ts : List (String × List PartInfo)) (m : BackupStructure),
        (ts.foldl
          (fun acc t => backupTableParts existing storage db t.1 acc t.2)
          m).bytes =
          m.bytes + (ts.map fun t => ((t.2.map PartInfo.bytes).sum)).sum := by
    intro ts
    induction ts with
    | nil => intro m; simp
    | cons t ts ih =>
      intro m
      simp only [List.foldl_cons, ih, backupTableParts_bytes, List.map_cons,
        List.sum_cons, Nat.add_assoc]
  intro m
  unfold backupDatabase
  simpa using main tables { m with databases := m.databases ++ [db] }

lemma processPart_parts_spec (existing : List BackupStructure)
    (storage : List String) (db table : String) (m : BackupStructure)
    (p : PartInfo) :
    ∃ e : PartEntry,
      (processPart existing storage db table m p).parts =
        m.parts ++ [(db, table, p.name, e)] ∧
      linkedEntrySound existing storage p e := by
  unfold processPart
  cases hd : deduplicatePart existing storage p with
  | none =>
    refine ⟨⟨p.checksum, p.size, p.files, none,
      savePartData m.path db table p.name⟩, rfl, ?_⟩
    intro l hl
    exact Option.noConfusion hl
  | some lp =>
    obtain ⟨link, remotePaths⟩ := lp
    refine ⟨⟨p.checksum, p.size, p.files, some link, remotePaths⟩, rfl, ?_⟩
    intro l hl
    have hll : link = l := Option.some.inj hl
    rw [hll] at hd
    obtain ⟨b, hb, hpath, c, hc, hlink, hmatch, havail, hpaths⟩ :=
      deduplicatePart_eq_some existing storage p l remotePaths hd
    exact ⟨b, hb, hpath, c, hc, hlink, hmatch, havail, hpaths.symm⟩

/-- Every entry present after the part loop of one table either was there
before, or was appended for one of the observed parts and has a sound link. -/
lemma backupTableParts_parts_mem (existing : List BackupStructure)
    (storage : List String) (db table : String) (parts : List PartInfo) :
    ∀ (m : BackupStructure)
      (entry : String × String × String × PartEntry),
      entry ∈ (backupTableParts existing storage db table m parts).parts →
      entry ∈ m.parts ∨
        ∃ p ∈ parts, entry.1 = db ∧ entry.2.1 = table ∧
          entry.2.2.1 = p.name ∧
          linkedEntrySound existing storage p entry.2.2.2 := by
  induction parts with
  | nil => intro m entry h; exact Or.inl h
  | cons p ps ih =>
    intro m entry h
    have h0 :
        backupTableParts existing storage db table m (p :: ps) =
          backupTableParts existing storage db table
            (processPart existing storage db table m p) ps := rfl
    rw [h0] at h
    rcases ih (processPart existing storage db table m p) entry h with
      hmem | ⟨q, hq, rest⟩
    · obtain ⟨e, he, hsound⟩ :=
        processPart_parts_spec existing storage db table m p
      rw [he] at hmem
      rcases List.mem_append.mp hmem with hold | hnew
      · exact Or.inl hold
      · obtain rfl : entry = (db, table, p.name, e) := List.mem_singleton.mp hnew
        exact Or.inr ⟨p, List.mem_cons_self p ps, rfl, rfl, rfl, hsound⟩
    · exact Or.inr ⟨q, List.mem_cons_of_mem p hq, rest⟩

/-- Every entry present after `backup_database` either was there before, or
was appended for a part observed in one of the database's tables and has a
sound link. -/
lemma backupDatabase_parts_mem (existing : List BackupStructure)
    (storage : List String) (db : String)
    (tables : List (String × List PartInfo)) :
    ∀ (m : BackupStructure)
      (entry : String × String × String × PartEntry),
      entry ∈ (backupDatabase existing storage db m tables).parts →
      entry ∈ m.parts ∨
        ∃ t ∈ tables, ∃ p ∈ t.2, entry.1 = db ∧ entry.2.1 = t.1 ∧
          entry.2.2.1 = p.name ∧
          linkedEntrySound existing storage p entry.2.2.2 := by
  have main :
      ∀ (ts : List (String × List PartInfo)) (m : BackupStructure)
        (entry : String × String × String × PartEntry),
        entry ∈ (ts.foldl
          (fun acc t => backupTableParts existing storage db t.1 acc t.2)
          m).parts →
        entry ∈ m.parts ∨
          ∃ t ∈ ts, ∃ p ∈ t.2, entry.1 = db ∧ entry.2.1 = t.1 ∧
            entry.2.2.1 = p.name ∧
            linkedEntrySound existing storage p entry.2.2.2 := by
    intro ts
    induction ts with
    | nil => intro m entry h; exact Or.inl h
    | cons t ts ih =>
      intro m entry h
      simp only [List.foldl_cons] at h
      rcases ih _ entry h with hmem | ⟨t', ht', rest⟩
      · rcases backupTableParts_parts_mem existing storage db t.1 t.2 m
          entry hmem with hold | ⟨p, hp, h1, h2, h3, h4⟩
        · exact Or.inl hold
        · exact Or.inr ⟨t, List.mem_cons_self t ts, p, hp, h1, h2, h3, h4⟩
      · exact Or.inr ⟨t', List.mem_cons_of_mem t ht', rest⟩
  intro m entry h
  unfold backupDatabase at h
  rcases main tables _ entry h with hmem | hrest
  · exact Or.inl hmem
  · exact Or.inr hrest

lemma backupDatabase_end_time (existing : List BackupStructure)
    (storage : List String) (db : String)
    (tables : List (String × List PartInfo)) :
    ∀ m : BackupStructure,
      (backupDatabase existing storage db m tables).end_time = m.end_time := by
  have hpart : ∀ (table : String) (p : PartInfo) (m : BackupStructure),
      (processPart existing storage db table m p).end_time = m.end_time := by
    intro table p m
    unfold processPart
    cases deduplicatePart existing storage p with
    | none => rfl
    | some lp => cases lp; rfl
  have htable : ∀ (t : String × List PartInfo) (m : BackupStructure),
      (backupTableParts existing storage db t.1 m t.2).end_time =
        m.end_time := by
    intro t
    obtain ⟨table, parts⟩ := t
    induction parts with
    | nil => intro m; rfl
    | cons p ps ih =>
      intro m
      have h0 :
          backupTableParts existing storage db table m (p :: ps) =
            backupTableParts existing storage db table
              (processPart existing storage db table m p) ps := rfl
      rw [h0, ih, hpart]
  have main : ∀ (ts : List (String × List PartInfo)) (m : BackupStructure),
      (ts.foldl
        (fun acc t => backupTableParts existing storage db t.1 acc t.2)
        m).end_time = m.end_time := by
    intro ts
    induction ts with
    | nil => intro m; rfl
    | cons t ts ih =>
      intro m
      simp only [List.foldl_cons, ih, htable]
  intro m
  unfold backupDatabase
  exact main tables _

lemma processDatabases_ok_iff (existing : List BackupStructure)
    (storage : List String) (dbs : List DbWork) :
    ∀ m : BackupStructure,
      (∃ m', processDatabases existing storage m dbs = .ok m') ↔
        dbs.all (fun w => w.freezeOk) = true := by
  induction dbs with
  | nil => intro m; simp [processDatabases]
  | cons w rest ih =>
    intro m
    by_cases hw : w.freezeOk
    · simp only [processDatabases, hw, if_true, List.all_cons, Bool.true_and]
      exact ih _
    · have hw' : w.freezeOk = false := Bool.of_not_eq_true hw
      simp [processDatabases, hw', List.all_cons]

lemma processDatabases_error_end_time (existing : List BackupStructure)
    (storage : List String) (dbs : List DbWork) :
    ∀ m mP : BackupStructure,
      processDatabases existing storage m dbs = .error mP →
      mP.end_time = m.end_time := by
  induction dbs with
  | nil => intro m mP h; exact Except.noConfusion h
  | cons w rest ih =>
    intro m mP h
    by_cases hw : w.freezeOk
    · simp only [processDatabases, hw, if_true] at h
      rw [ih _ _ h, backupDatabase_end_time]
    · have hw' : w.freezeOk = false := Bool.of_not_eq_true hw
      simp only [processDatabases, hw', Bool.false_eq_true, if_false] at h
      obtain rfl : m = mP := Except.error.inj h
      rfl

lemma processDatabases_ok_end_time (existing : List BackupStructure)
    (storage : List String) (dbs : List DbWork) :
    ∀ m m' : BackupStructure,
      processDatabases existing storage m dbs = .ok m' →
      m'.end_time = m.end_time := by
  induction dbs with
  | nil =>
    intro m m' h
    obtain rfl : m = m' := Except.ok.inj h
    rfl
  | cons w rest ih =>
    intro m m' h
    by_cases hw : w.freezeOk
    · simp only [processDatabases, hw, if_true] at h
      rw [ih _ _ h, backupDatabase_end_time]
    · have hw' : w.freezeOk = false := Bool.of_not_eq_true hw
      simp only [processDatabases, hw', Bool.false_eq_true, if_false] at h
      exact Except.noConfusion h

lemma textStartsWith_append (pat rest : List Char) :
    textStartsWith pat (pat ++ rest) = true := by
  induction pat with
  | nil => rfl
  | cons p ps ih => simp [textStartsWith, ih]

lemma replaceFirst_at_start (pat repl rest : List Char) :
    replaceFirst pat repl (pat ++ rest) = repl ++ rest := by
  cases hp : pat with
  | nil =>
    subst hp
    cases rest with
    | nil => simp [replaceFirst, textStartsWith]
    | cons c cs => simp [replaceFirst, textStartsWith]
  | cons p ps =>
    rw [← hp]
    have hpe : pat ++ rest ≠ [] := by
      rw [hp]; simp
    cases hc : pat ++ rest with
    | nil => exact absurd hc hpe
    | cons c cs =>
      rw [← hc]
      have h1 : textStartsWith pat (pat ++ rest) = true :=
        textStartsWith_append pat rest
      have h2 : replaceFirst pat repl (pat ++ rest) =
          if textStartsWith pat (pat ++ rest) then
            repl ++ (pat ++ rest).drop pat.length
          else
            match pat ++ rest with
            | [] => []
            | c :: cs => c :: replaceFirst pat repl cs := by
        rw [hc]
        rfl
      rw [h2, if_pos h1, List.drop_left]

lemma okResults_errIds_length {α : Type}
    (completed : List (PoolJob × Outcome α)) :
    (okResults completed).length + (errIds completed).length =
      completed.length := by
  induction completed with
  | nil => rfl
  | cons x rest ih =>
    obtain ⟨jb, o⟩ := x
    cases o with
    | ok a =>
      simp only [okResults, errIds, List.filterMap_cons] at *
      simp [List.length_cons, ← ih, Nat.add_assoc, Nat.add_comm,
        Nat.add_left_comm]
    | err =>
      simp only [okResults, errIds, List.filterMap_cons] at *
      simp [List.length_cons, ← ih, Nat.add_assoc, Nat.add_comm,
        Nat.add_left_comm]

lemma asCompleted_true_eq {α : Type}
    (completed : List (PoolJob × Outcome α)) :
    asCompleted true completed =
      { yielded := okResults completed,
        callbacksRun := okCallbacks completed,
        warnLogs := errIds completed,
        errorLogs := [],
        raised := false,
        unprocessed := [],
        registryCleared := true } := by
  induction completed with
  | nil => rfl
  | cons x rest ih =>
    obtain ⟨jb, o⟩ := x
    cases o with
    | ok a =>
      cases hcb : jb.callback with
      | none =>
        simp [asCompleted, ih, okResults, okCallbacks, errIds,
          List.filterMap_cons, hcb]
      | some c =>
        simp [asCompleted, ih, okResults, okCallbacks, errIds,
          List.filterMap_cons, hcb]
    | err =>
      simp [asCompleted, ih, okResults, okCallbacks, errIds,
        List.filterMap_cons]

/-! ### Claim theorems -/

/-- C6: collecting a batch of N completed jobs with keep-going=true yields
exactly the successful results (N−k of them when k jobs failed), logs each
of the k failures as a warning, raises nothing, and drains and clears the
whole batch. -/
theorem c6_keep_going_collects_all_successes {α : Type}
    (completed : List (PoolJob × Outcome α)) :
    (asCompleted true completed).yielded = okResults completed ∧
    (asCompleted true completed).raised = false ∧
    (asCompleted true completed).errorLogs = [] ∧
    (asCompleted true completed).warnLogs = errIds completed ∧
    (asCompleted true completed).unprocessed = [] ∧
    (asCompleted true completed).yielded.length + (errIds completed).length =
      completed.length ∧
    (asCompleted true completed).registryCleared = true := by
  rw [asCompleted_true_eq]
  exact ⟨rfl, rfl, rfl, rfl, rfl, okResults_errIds_length completed, rfl⟩

/-- C7: submitting a job whose id matches a currently-outstanding job
raises the duplicate error (nothing is queued and the registry is
unchanged), while a fresh id appends exactly that one job to the
registry. -/
theorem c7_submit_duplicate_rejected (r : Registry) (jobId : String)
    (fut : Nat) (cb : Option String) :
    ((registeredIds r).contains jobId = true →
      submit r jobId fut cb = .error PoolError.duplicate) ∧
    ((registeredIds r).contains jobId = false →
      submit r jobId fut cb = .ok (r ++ [(fut, PoolJob.mk jobId cb)])) := by
  constructor <;> intro h <;>
    simp only [submit, h, Bool.false_eq_true, if_true, if_false]

/-- Witness for C7 at a concrete registry: submitting the already-present
id `a` is rejected, submitting the fresh id `b` appends one job. -/
theorem c7_submit_duplicate_rejected_witness :
    submit [(0, PoolJob.mk "a" none)] "a" 1 none =
      .error PoolError.duplicate ∧
    submit [(0, PoolJob.mk "a" none)] "b" 1 none =
      .ok ([(0, PoolJob.mk "a" none)] ++ [(1, PoolJob.mk "b" none)]) :=
  ⟨(c7_submit_duplicate_rejected [(0, PoolJob.mk "a" none)] "a" 1 none).1
      (by decide),
   (c7_submit_duplicate_rejected [(0, PoolJob.mk "a" none)] "b" 1 none).2
      (by decide)⟩

/-- C4 counterexample: collecting `sampleBatch` (success `j1`, then
failures `j2` and `j3`) with keep-going=false raises at `j2` and leaves
`j3`'s completion unexamined — it is neither drained nor logged, contrary
to the claim that all other outstanding jobs' results are still drained
with their failures logged. -/
theorem c4_counterexample_no_draining :
    (asCompleted false sampleBatch).raised = true ∧
    (asCompleted false sampleBatch).unprocessed =
      [(PoolJob.mk "j3" none, Outcome.err)] ∧
    (asCompleted false sampleBatch).warnLogs = [] ∧
    (asCompleted false sampleBatch).errorLogs = ["j2"] := by
  decide

/-- C4 amended: with keep-going=false, the successes completed before the
first failure are yielded (with their callbacks run), the first failure is
logged as an error and its exception propagates to the caller, and the
completions after it are left unexamined — they are not drained and the
registry is not cleared. -/
theorem c4_first_failure_aborts_collection {α : Type}
    (pre : List (PoolJob × Outcome α)) (j : PoolJob)
    (post : List (PoolJob × Outcome α))
    (hpre : ∀ x ∈ pre, x.2 ≠ Outcome.err) :
    asCompleted false (pre ++ (j, Outcome.err) :: post) =
      { yielded := okResults pre,
        callbacksRun := okCallbacks pre,
        warnLogs := [],
        errorLogs := [j.id_],
        raised := true,
        unprocessed := post,
        registryCleared := false } := by
  induction pre with
  | nil => rfl
  | cons x xs ih =>
    obtain ⟨jb, o⟩ := x
    cases o with
    | ok a =>
      have hxs : ∀ y ∈ xs, y.2 ≠ Outcome.err := fun y hy =>
        hpre y (List.mem_cons_of_mem _ hy)
      cases hcb : jb.callback with
      | none =>
        simp [asCompleted, ih hxs, okResults, okCallbacks,
          List.filterMap_cons, hcb]
      | some c =>
        simp [asCompleted, ih hxs, okResults, okCallbacks,
          List.filterMap_cons, hcb]
    | err =>
      exact absurd rfl
        (hpre (jb, Outcome.err) (List.mem_cons_self _ _))

/-- Witness for the amended C4 at `sampleBatch2`: `j1`'s success is
yielded and its callback runs, `j2`'s failure raises, `j3` stays
unprocessed. -/
theorem c4_first_failure_aborts_collection_witness :
    asCompleted false sampleBatch2 =
      { yielded := [5],
        callbacksRun := ["cb1"],
        warnLogs := [],
        errorLogs := ["j2"],
        raised := true,
        unprocessed := [(PoolJob.mk "j3" none, Outcome.err)],
        registryCleared := false } := by
  have h := c4_first_failure_aborts_collection
    [(PoolJob.mk "j1" (some "cb1"), Outcome.ok 5)] (PoolJob.mk "j2" none)
    [(PoolJob.mk "j3" none, Outcome.err)] (by decide)
  exact h.trans (by decide)

/-- C5 (evaluating the code at the failing input): `download_part` with the
falsy `part_len = 0` reads zero bytes rather than a default-size chunk
(which would return the whole 3-byte body, as the last conjunct shows);
`part_len = None` reads the entire remaining body; and an explicit truthy
`part_len = 2` is ignored in favour of the default chunk size. -/
theorem c5_download_part_falsy_is_passed_through :
    download_part [1, 2, 3] (some 0) = [] ∧
    download_part [1, 2, 3] none = [1, 2, 3] ∧
    download_part [1, 2, 3] (some 2) = [1, 2, 3] ∧
    readBody [1, 2, 3] (some DEFAULT_DOWNLOAD_PART_LEN) = [1, 2, 3] := by
  have htake : ([1, 2, 3] : List Nat).take DEFAULT_DOWNLOAD_PART_LEN =
      [1, 2, 3] := by
    apply List.take_of_length_le
    unfold DEFAULT_DOWNLOAD_PART_LEN
    norm_num
  exact ⟨rfl, rfl, htake, htake⟩

/-- C2 (evaluating the code at the failing input): the requested database
list `[db1]` is a subset of the backup's recorded databases, and the list
of missing databases carried to the log is empty, yet `restore` raises
`ClickHouseBackupError` — because the source tests the truthiness of the
generator object `missed_databases` rather than of its contents.  With no
explicit list, restore proceeds over the recorded databases. -/
theorem c2_restore_always_rejects_explicit_list :
    sampleRestoreMeta.databases = ["db1"] ∧
    restore sampleRestoreMeta (some ["db1"]) =
      .error (ChError.clickhouseBackupError, []) ∧
    restore sampleRestoreMeta none = .ok ["db1"] :=
  ⟨rfl, rfl, rfl⟩

/-- C9 counterexample: rewriting a database schema text while backing up
database `db1` produces plain `CREATE ...` text that contains no occurrence
of the owning database name at all — no database name is injected, contrary
to the claim that every database and table schema rewrite injects the
owning database name. -/
theorem c9_counterexample_no_db_name_injected :
    backupDatabaseMetaText "ATTACH DATABASE xyz ENGINE = Ordinary".data =
      "CREATE DATABASE xyz ENGINE = Ordinary".data ∧
    containsSub "db1".data
      (backupDatabaseMetaText "ATTACH DATABASE xyz ENGINE = Ordinary".data) =
      false := by
  decide

/-- C9 amended: the table schema's leading `ATTACH TABLE ` is rewritten to
`CREATE TABLE <db>.` (first occurrence only — any later occurrence inside
`rest` is preserved verbatim), while the database schema's leading
`ATTACH ` is rewritten to plain `CREATE ` without injecting the database
name. -/
theorem c9_schema_rewrite_directives (dbName : String) (rest : List Char) :
    backupTableMetaText dbName ("ATTACH TABLE ".data ++ rest) =
      "CREATE TABLE ".data ++ dbName.data ++ '.' :: rest ∧
    backupDatabaseMetaText ("ATTACH ".data ++ rest) =
      "CREATE ".data ++ rest := by
  constructor
  · unfold backupTableMetaText
    rw [replaceFirst_at_start]
    simp
  · unfold backupDatabaseMetaText
    rw [replaceFirst_at_start]

/-- C1: the deduplication resolver returns a no-match result exactly when
no candidate passes all checks, and otherwise returns the path and
recorded file paths of the first candidate backup whose entry for the
observed part exists, is not itself a link, matches the observed part on
checksum/size/files, and has every recorded file path present in the
storage backend. -/
theorem c1_dedup_returns_first_passing_candidate
    (cands : List BackupStructure) (storage : List String) (p : PartInfo) :
    (deduplicatePart cands storage p = none ↔
      ∀ b ∈ cands, dedupAccepts storage p b = false) ∧
    (∀ pre b post, cands = pre ++ b :: post →
      (∀ c ∈ pre, dedupAccepts storage p c = false) →
      dedupAccepts storage p b = true →
      ∃ e, getPartContents b p.database p.table p.name = some e ∧
        e.link = none ∧ partInfoMatches p e = true ∧
        checkPartAvailability storage e = true ∧
        deduplicatePart cands storage p = some (b.path, e.paths)) := by
  refine ⟨deduplicatePart_eq_none_iff cands storage p, ?_⟩
  intro pre b post hc hpre hb
  subst hc
  exact deduplicatePart_first_accept storage p pre b post hpre hb

/-- Witness for C1: with the newer link-entry candidate first and the
older owning candidate second, the resolver skips the link and returns the
older backup's path and file paths. -/
theorem c1_dedup_returns_first_passing_candidate_witness :
    deduplicatePart [sampleLinkCandidate, sampleGoodCandidate] sampleStorage
      samplePart = some ("ch_backup/b1", ["ch_backup/b1/db1/t1/p1"]) := by
  obtain ⟨e, he, -, -, -, hres⟩ :=
    (c1_dedup_returns_first_passing_candidate
      [sampleLinkCandidate, sampleGoodCandidate] sampleStorage samplePart).2
      [sampleLinkCandidate] sampleGoodCandidate [] rfl (by decide) (by decide)
  have he' : getPartContents sampleGoodCandidate samplePart.database
      samplePart.table samplePart.name = some sampleGoodEntry := by decide
  have hee : e = sampleGoodEntry := Option.some.inj (he.symm.trans he')
  rw [hee] at hres
  exact hres.trans (by decide)

/-- C8: every part entry a backup run records with a link points at a
candidate backup whose own entry for that part is not itself a link (the
resolver skips candidates whose entry has the link field set), so no
transitive link chains are created. -/
theorem c8_recorded_links_point_to_non_links
    (existing : List BackupStructure) (storage : List String) (db : String)
    (m : BackupStructure) (tables : List (String × List PartInfo))
    (entry : String × String × String × PartEntry)
    (hentry : entry ∈ (backupDatabase existing storage db m tables).parts)
    (hnew : entry ∉ m.parts) (l : String)
    (hlink : entry.2.2.2.link = some l) :
    ∃ t ∈ tables, ∃ p ∈ t.2, entry.2.2.1 = p.name ∧
      ∃ b ∈ existing, b.path = l ∧
        ∃ c, getPartContents b p.database p.table p.name = some c ∧
          c.link = none ∧ partInfoMatches p c = true ∧
          checkPartAvailability storage c = true ∧
          entry.2.2.2.paths = c.paths := by
  rcases backupDatabase_parts_mem existing storage db tables m entry hentry
    with hmem | ⟨t, ht, p, hp, h1, h2, h3, hsound⟩
  · exact absurd hmem hnew
  · obtain ⟨b, hb, hpath, c, hc, hl, hm2, ha, hpaths⟩ := hsound l hlink
    exact ⟨t, ht, p, hp, h3, b, hb, hpath, c, hc, hl, hm2, ha, hpaths⟩

/-- Witness for C8: backing up `samplePart` against the candidate
`sampleGoodCandidate` records `sampleRecordedEntry`, whose link points at
`sampleGoodCandidate`, whose own entry has no link. -/
theorem c8_recorded_links_point_to_non_links_witness :
    ∃ t ∈ [("t1", [samplePart])], ∃ p ∈ t.2,
      sampleRecordedEntry.2.2.1 = p.name ∧
      ∃ b ∈ [sampleGoodCandidate], b.path = "ch_backup/b1" ∧
        ∃ c, getPartContents b p.database p.table p.name = some c ∧
          c.link = none ∧ partInfoMatches p c = true ∧
          checkPartAvailability sampleStorage c = true ∧
          sampleRecordedEntry.2.2.2.paths = c.paths :=
  c8_recorded_links_point_to_non_links [sampleGoodCandidate] sampleStorage
    "db1" sampleEmptyMeta [("t1", [samplePart])] sampleRecordedEntry
    (by decide) (by decide) "ch_backup/b1" (by decide)

/-- C10: after `backup_database`, the aggregate rows and bytes counters
equal their previous values plus the sum over every observed part of every
table — for any candidate set and storage content, hence regardless of
whether each part was deduplicated or freshly transferred. -/
theorem c10_totals_accumulate_over_all_parts
    (existing : List BackupStructure) (storage : List String) (db : String)
    (m : BackupStructure) (tables : List (String × List PartInfo)) :
    (backupDatabase existing storage db m tables).rows =
      m.rows + (tables.map fun t => ((t.2.map PartInfo.rows).sum)).sum ∧
    (backupDatabase existing storage db m tables).bytes =
      m.bytes + (tables.map fun t => ((t.2.map PartInfo.bytes).sum)).sum :=
  ⟨backupDatabase_rows existing storage db tables m,
   backupDatabase_bytes existing storage db tables m⟩

/-- C3: a backup run sets `end_time` exactly when every requested database
was processed without a fatal error: a fully successful run returns the
backup name, stamps `end_time` and persists the document, while a failing
run raises, leaves `end_time` unset, persists nothing, and its name appears
neither in `list()` nor among the deduplication candidate backups. -/
theorem c3_end_time_iff_run_completed
    (existing : List BackupStructure) (storage : List String)
    (st : StorageState) (nm pth : String) (dbs : List DbWork)
    (startT endT ageLimit : Nat) :
    ((dbs.all fun w => w.freezeOk) = true →
      (backupRun existing storage st nm pth dbs startT endT).result =
        .ok nm ∧
      (backupRun existing storage st nm pth dbs startT endT).meta.end_time =
        some endT ∧
      (backupRun existing storage st nm pth dbs startT endT).storage =
        saveBackupMeta st
          (backupRun existing storage st nm pth dbs startT endT).meta) ∧
    ((dbs.all fun w => w.freezeOk) = false →
      (backupRun existing storage st nm pth dbs startT endT).result =
        .error ChError.clickhouseBackupError ∧
      (backupRun existing storage st nm pth dbs startT endT).meta.end_time =
        none ∧
      (backupRun existing storage st nm pth dbs startT endT).storage = st ∧
      listBackups
          (backupRun existing storage st nm pth dbs startT endT).storage =
        listBackups st ∧
      loadExistingBackups
          (backupRun existing storage st nm pth dbs startT endT).storage
          ageLimit =
        loadExistingBackups st ageLimit ∧
      (nm ∉ listBackups st →
        nm ∉ listBackups
          (backupRun existing storage st nm pth dbs startT endT).storage)) := by
  constructor
  · intro hall
    obtain ⟨m', hm'⟩ :=
      (processDatabases_ok_iff existing storage dbs
        (markStart { name := nm, path := pth } startT)).mpr hall
    simp only [backupRun]
    rw [hm']
    exact ⟨rfl, rfl, rfl⟩
  · intro hfail
    cases hpd : processDatabases existing storage
        (markStart { name := nm, path := pth } startT) dbs with
    | ok m' =>
      have hall : (dbs.all fun w => w.freezeOk) = true :=
        (processDatabases_ok_iff existing storage dbs
          (markStart { name := nm, path := pth } startT)).mp ⟨m', hpd⟩
      rw [hall] at hfail
      exact Bool.noConfusion hfail
    | error mP =>
      have hend : mP.end_time = none := by
        rw [processDatabases_error_end_time existing storage dbs
          (markStart { name := nm, path := pth } startT) mP hpd]
        rfl
      simp only [backupRun]
      rw [hpd]
      exact ⟨rfl, hend, rfl, rfl, rfl, fun h => h⟩

/-- Witness for C3 at a failing run: the run over `sampleFailingRun`
(second database's freeze fails) raises, leaves `end_time` unset, leaves
the store untouched, and its name `b9` shows up neither in the backup list
nor among dedup candidates. -/
theorem c3_end_time_iff_run_completed_witness :
    (backupRun [] [] sampleStore "b9" "ch_backup/b9" sampleFailingRun 1
        2).result = .error ChError.clickhouseBackupError ∧
    (backupRun [] [] sampleStore "b9" "ch_backup/b9" sampleFailingRun 1
        2).meta.end_time = none ∧
    (backupRun [] [] sampleStore "b9" "ch_backup/b9" sampleFailingRun 1
        2).storage = sampleStore ∧
    listBackups (backupRun [] [] sampleStore "b9" "ch_backup/b9"
        sampleFailingRun 1 2).storage = listBackups sampleStore ∧
    loadExistingBackups (backupRun [] [] sampleStore "b9" "ch_backup/b9"
        sampleFailingRun 1 2).storage 0 =
      loadExistingBackups sampleStore 0 ∧
    "b9" ∉ listBackups (backupRun [] [] sampleStore "b9" "ch_backup/b9"
        sampleFailingRun 1 2).storage := by
  have h := (c3_end_time_iff_run_completed [] [] sampleStore "b9"
    "ch_backup/b9" sampleFailingRun 1 2 0).2 (by decide)
  exact ⟨h.1, h.2.1, h.2.2.1, h.2.2.2.1, h.2.2.2.2.1,
    h.2.2.2.2.2 (by decide)⟩

end ChBackup
